import Mathlib

/-!
Shallow embedding of the study-tracker session store and analytics engine
(`src/data_manager.py` `DataManager` and `src/utils.py` `StatsCalculator`).

Modelling conventions:
- A persisted JSON value is an inductive `Json`; the data file is modelled as
  `Option (Option Json)`: `none` = the file does not exist, `some none` = the
  file exists but reading/parsing it fails (`json.JSONDecodeError` / `IOError`),
  `some (some j)` = the file exists and parses to `j`.  `load_data` returns the
  parsed value together with a flag recording whether an error message was
  printed.
- Python dicts preserve insertion order; a dict built by
  `d[k] = d.get(k, 0) + v` is modelled as an association list updated by
  `addToAssoc` (update in place, append new keys at the end).
- `datetime.now()` is ambient state in the Python code; here the current
  instant (`now`, in seconds) resp. the current date (`today`, as a civil day
  number) is an explicit parameter.
- Timestamps are strings parsed with the canonical format
  `YYYY-MM-DD HH:MM:SS` (`datetime.strptime(ts, "%Y-%m-%d %H:%M:%S")`);
  datetimes are compared through their total second count, dates through their
  civil day number, both order-isomorphic to Python's datetime/date order.
- Python `float` division of integers is modelled by `ℚ` division; the values
  appearing in the claims are exactly representable.
-/

/-- A JSON value (the image of `json.load` / the argument of `json.dump`). -/
inductive Json where
  | null : Json
  | bool : Bool → Json
  | num : Int → Json
  | str : String → Json
  | arr : List Json → Json
  | obj : List (String × Json) → Json

/-- The state of the data file: absent, present-but-unreadable, or a parsed
JSON value. -/
abbrev FS := Option (Option Json)

/-- `DataManager.load_data` (src/data_manager.py:38-52) on the coarse file
state: if the file exists, try to parse it and return the parsed value; on
`JSONDecodeError`/`IOError` print an error and return `[]`; if the file does
not exist return `[]`.  The `Bool` component records whether the error branch
printed a message.  Note that `some none` stands only for the two failure
classes the `except` clause actually catches; the source also has an
uncaught-exception path (`UnicodeDecodeError` from `json.load` on a file
whose bytes do not decode), which this coarse state cannot represent — see
`FileBytes` and `load_dataPy` below for the refinement that does. -/
def load_data : FS → Json × Bool
  | none => (Json.arr [], false)
  | some none => (Json.arr [], true)
  | some (some j) => (j, false)

/-- `DataManager.save_data` (src/data_manager.py:54-75): overwrite the file
with `json.dump(data, f, indent=4)` and return `True`.  (I/O faults, which
would return `False`, are outside the pure filesystem model; no claim depends
on the failure branch.) -/
def save_data (data : List Json) (_fs : FS) : Bool × FS :=
  (true, some (some (Json.arr data)))

/-- `DataManager.get_all_sessions` (src/data_manager.py:102-109): returns
`self.load_data()`. -/
def get_all_sessions (fs : FS) : Json :=
  (load_data fs).1

/- ### Timestamp parsing -/

/-- Numeric value of a decimal digit character, `none` otherwise. -/
def digitVal (c : Char) : Option Nat :=
  if c.isDigit then some (c.toNat - 48) else none

/-- Two decimal digits read as a number. -/
def twoDigits (a b : Char) : Option Nat :=
  match digitVal a, digitVal b with
  | some x, some y => some (10 * x + y)
  | _, _ => none

/-- Four decimal digits read as a number. -/
def fourDigits (a b c d : Char) : Option Nat :=
  match digitVal a, digitVal b, digitVal c, digitVal d with
  | some x, some y, some z, some w => some (1000 * x + 100 * y + 10 * z + w)
  | _, _, _, _ => none

/-- A parsed calendar timestamp (the result of a successful
`datetime.strptime(ts, "%Y-%m-%d %H:%M:%S")`). -/
structure DateTime where
  year : Nat
  month : Nat
  day : Nat
  hour : Nat
  minute : Nat
  second : Nat
  deriving DecidableEq

/-- Gregorian leap-year test. -/
def isLeap (y : Nat) : Bool :=
  (y % 4 = 0 && y % 100 != 0) || y % 400 = 0

/-- Number of days in a month of a given year. -/
def daysInMonth (y m : Nat) : Nat :=
  if m = 2 then (if isLeap y then 29 else 28)
  else if m = 4 ∨ m = 6 ∨ m = 9 ∨ m = 11 then 30
  else 31

/-- Field-range validation performed by `strptime`. -/
def mkDateTime (y mo d h mi s : Nat) : Option DateTime :=
  if 1 ≤ mo ∧ mo ≤ 12 ∧ 1 ≤ d ∧ d ≤ daysInMonth y mo ∧ h ≤ 23 ∧ mi ≤ 59 ∧ s ≤ 59
  then some ⟨y, mo, d, h, mi, s⟩ else none

/-- `datetime.strptime(ts, "%Y-%m-%d %H:%M:%S")` on the canonical fixed-width
form: 19 characters, digits in the numeric positions, the literal separators
in between, all fields in range; any other string raises `ValueError`,
modelled as `none`. -/
def parseTimestamp (ts : String) : Option DateTime :=
  match ts.toList with
  | [y1, y2, y3, y4, c1, m1, m2, c2, d1, d2, c3, h1, h2, c4, n1, n2, c5, s1, s2] =>
    if c1 = '-' ∧ c2 = '-' ∧ c3 = ' ' ∧ c4 = ':' ∧ c5 = ':' then
      match fourDigits y1 y2 y3 y4, twoDigits m1 m2, twoDigits d1 d2,
            twoDigits h1 h2, twoDigits n1 n2, twoDigits s1 s2 with
      | some y, some mo, some d, some h, some mi, some s => mkDateTime y mo d h mi s
      | _, _, _, _, _, _ => none
    else none
  | _ => none

/-- Civil day number of a Gregorian date (days since 1970-01-01, Hinnant's
`days_from_civil`); consecutive calendar days map to consecutive integers and
the order matches Python's `date` order. -/
def daysFromCivil (y m d : Nat) : Int :=
  let yi : Int := (y : Int) - (if m ≤ 2 then 1 else 0)
  let era : Int := (if 0 ≤ yi then yi else yi - 399) / 400
  let yoe : Int := yi - era * 400
  let doy : Int := (153 * ((m : Int) + (if 2 < m then -3 else 9)) + 2) / 5 + (d : Int) - 1
  let doe : Int := yoe * 365 + yoe / 4 - yoe / 100 + doy
  era * 146097 + doe - 719468

/-- The civil day number of a datetime (its `.date()`). -/
def toDay (t : DateTime) : Int :=
  daysFromCivil t.year t.month t.day

/-- Total seconds of a datetime; Python datetime comparison is
order-isomorphic to comparison of this count. -/
def toSeconds (t : DateTime) : Int :=
  toDay t * 86400 + t.hour * 3600 + t.minute * 60 + t.second

/- ### The session record and the analytics functions -/

/-- One study-session record: the five fields of the persisted dict
(src/data_manager.py:90-96). -/
structure Session where
  timestamp : String
  subject : String
  duration : Int
  productivity : Int
  notes : String
  deriving DecidableEq

/-- `subject_time[subject] = subject_time.get(subject, 0) + duration` on an
insertion-ordered dict: add to the existing key in place, else append. -/
def addToAssoc (m : List (String × Int)) (k : String) (v : Int) :
    List (String × Int) :=
  match m with
  | [] => [(k, v)]
  | (k', v') :: rest =>
    if k' = k then (k', v' + v) :: rest else (k', v') :: addToAssoc rest k v

/-- Ordered-dict lookup (`subject_count[subject]`; all lookups performed by
the code are on present keys, so the `[]` default is never reached). -/
def lookupD (m : List (String × Int)) (k : String) : Int :=
  match m with
  | [] => 0
  | (k', v) :: rest => if k' = k then v else lookupD rest k

/-- `DataManager.get_subject_time` (src/data_manager.py:135-154) on an
explicit session list: total duration per subject, grouped into an
insertion-ordered dict. -/
def get_subject_time (sessions : List Session) : List (String × Int) :=
  sessions.foldl (fun m s => addToAssoc m s.subject s.duration) []

/-- `DataManager.get_total_time` (src/data_manager.py:156-169):
`sum(session['duration'] for session in sessions)`. -/
def get_total_time (sessions : List Session) : Int :=
  (sessions.map (fun s => s.duration)).sum

/-- `DataManager.get_average_productivity` (src/data_manager.py:171-187):
`0.0` on the empty list, else the mean of the productivity scores. -/
def get_average_productivity (sessions : List Session) : ℚ :=
  if sessions.isEmpty then 0
  else ((sessions.map (fun s => s.productivity)).sum : ℚ) / (sessions.length : ℚ)

/-- `DataManager.get_session_count` (src/data_manager.py:221-234):
`len(sessions)`. -/
def get_session_count (sessions : List Session) : Nat :=
  sessions.length

/-- Python `max(l, key=lambda x: x[1])` running over `best :: l`: scan left to
right, replace the current best only on a strictly greater key, so ties keep
the earliest element. -/
def maxPair {β : Type} [LinearOrder β] :
    (String × β) → List (String × β) → (String × β)
  | best, [] => best
  | best, p :: rest => maxPair (if best.2 < p.2 then p else best) rest

/-- `DataManager.get_most_studied_subject` (src/data_manager.py:189-204):
`None` when the grouped dict is empty, else
`max(subject_time.items(), key=lambda x: x[1])`. -/
def get_most_studied_subject (sessions : List Session) :
    Option (String × Int) :=
  match get_subject_time sessions with
  | [] => none
  | p :: rest => some (maxPair p rest)

/-- `DataManager.get_weekly_sessions` (src/data_manager.py:111-133) on an
explicit session list: keep, in order, the sessions whose timestamp parses
and is `≥ now - timedelta(days=days)`; `ValueError` (parse failure) skips the
record. -/
def get_weekly_sessions (now days : Int) : List Session → List Session
  | [] => []
  | s :: rest =>
    match parseTimestamp s.timestamp with
    | some t =>
      if now - days * 86400 ≤ toSeconds t
      then s :: get_weekly_sessions now days rest
      else get_weekly_sessions now days rest
    | none => get_weekly_sessions now days rest

/-- `get_weekly_sessions` with its default argument `days: int = 7`. -/
def get_weekly_sessionsDefault (now : Int) (data : List Session) :
    List Session :=
  get_weekly_sessions now 7 data

/- ### StatsCalculator -/

/-- The dict comprehension of src/utils.py:276-279: per-subject average
productivity, computed from the grouped productivity totals and counts of
`StatsCalculator.get_best_productivity_subject`.  `subject_productivity` and
`subject_count` are built over the same keys in the same order, so every
lookup hits. -/
def subjectAvg (sessions : List Session) : List (String × ℚ) :=
  let subjectProductivity :=
    sessions.foldl (fun m s => addToAssoc m s.subject s.productivity) []
  let subjectCount :=
    sessions.foldl (fun m s => addToAssoc m s.subject 1) []
  subjectProductivity.map (fun p => (p.1, (p.2 : ℚ) / (lookupD subjectCount p.1 : ℚ)))

/-- `StatsCalculator.get_best_productivity_subject` (src/utils.py:252-285):
`("", 0.0)` on the empty list, else
`max(subject_avg.items(), key=lambda x: x[1])`. -/
def get_best_productivity_subject (sessions : List Session) : String × ℚ :=
  if sessions.isEmpty then ("", 0)
  else
    match subjectAvg sessions with
    | [] => ("", 0)
    | p :: rest => maxPair p rest

/-- The date-collection loop of `StatsCalculator.calculate_study_streak`
(src/utils.py:220-226): the set of distinct parseable calendar dates, as a
duplicate-free list (set iteration order is irrelevant: the dates are sorted
before use). -/
def datesOf (sessions : List Session) : List Int :=
  sessions.foldl
    (fun ds s =>
      match (parseTimestamp s.timestamp).map toDay with
      | some d => if d ∈ ds then ds else ds ++ [d]
      | none => ds) []

/-- Insertion into a descending-sorted list. -/
def insertDesc (x : Int) : List Int → List Int
  | [] => [x]
  | y :: ys => if y ≤ x then x :: y :: ys else y :: insertDesc x ys

/-- `sorted(dates, reverse=True)`. -/
def sortDesc (l : List Int) : List Int :=
  l.foldr insertDesc []

/-- The walk of src/utils.py:235-249 starting from `streak = 1`: count one
for the head plus one per adjacent pair exactly one day apart, stopping at
the first gap. -/
def consecRun : List Int → Nat
  | [] => 0
  | [_] => 1
  | a :: b :: rest => if a - b = 1 then 1 + consecRun (b :: rest) else 1

/-- `StatsCalculator.calculate_study_streak` (src/utils.py:204-249) with the
ambient `datetime.now().date()` passed as `today`: 0 on no sessions or no
parseable date; 0 when the most recent date is neither today nor yesterday;
otherwise the length of the run of consecutive days walked from the most
recent date. -/
def calculate_study_streak (today : Int) (sessions : List Session) : Nat :=
  if sessions.isEmpty then 0
  else
    match sortDesc (datesOf sessions) with
    | [] => 0
    | d :: rest =>
      if d ≠ today ∧ d ≠ today - 1 then 0
      else consecRun (d :: rest)

/- ### Record validity (spec §3) -/

/-- Python `str.strip()`: drop leading and trailing whitespace (over the
character list, so that validity checks evaluate inside the kernel). -/
def stripChars (l : List Char) : List Char :=
  ((l.dropWhile Char.isWhitespace).reverse.dropWhile Char.isWhitespace).reverse

/-- A JSON object that is a valid persisted `SessionRecord` in the sense of
spec §3: exactly the five fields in order, a parseable canonical timestamp, a
non-empty trimmed subject of at most 100 characters, duration in 1..1440,
productivity in 1..5. -/
def validSessionJson : Json → Bool
  | Json.obj [("timestamp", Json.str ts), ("subject", Json.str sub),
              ("duration", Json.num d), ("productivity", Json.num p),
              ("notes", Json.str _)] =>
    (parseTimestamp ts).isSome && !(stripChars sub.data).isEmpty
      && decide ((stripChars sub.data).length ≤ 100)
      && decide (1 ≤ d) && decide (d ≤ 1440)
      && decide (1 ≤ p) && decide (p ≤ 5)
  | _ => false

/- ### Concrete records used by the spec's examples -/

/-- `(Math, 30, 3)` from spec §8. -/
def mathSession1 : Session :=
  ⟨"2024-01-15 09:00:00", "Math", 30, 3, ""⟩

/-- `(Math, 30, 5)` from spec §8. -/
def mathSession2 : Session :=
  ⟨"2024-01-15 10:00:00", "Math", 30, 5, ""⟩

/-- `(Physics, 50, 4)` from spec §8. -/
def physicsSession : Session :=
  ⟨"2024-01-15 11:00:00", "Physics", 50, 4, ""⟩

/-- The three-record example list of spec §8. -/
def exampleSessions : List Session :=
  [mathSession1, mathSession2, physicsSession]

/-- The single-record example file body of spec §6, as a JSON value. -/
def exampleRecordJson : Json :=
  Json.obj [("timestamp", Json.str "2024-01-15 09:30:00"),
            ("subject", Json.str "Algorithms"),
            ("duration", Json.num 45),
            ("productivity", Json.num 4),
            ("notes", Json.str "Reviewed sorting")]

/-- The on-disk state of the data file, refined by the class of failure that
`open`/`json.load` produce on it: absent; existing but with bytes that do not
decode under the text encoding (`json.load` raises `UnicodeDecodeError`, a
`ValueError`); existing and decodable but not valid JSON
(`json.JSONDecodeError`); existing but unreadable (`IOError`); or holding a
parsed JSON value. -/
inductive FileBytes where
  | absent : FileBytes
  | undecodable : FileBytes
  | malformed : FileBytes
  | unreadable : FileBytes
  | content : Json → FileBytes

/-- The outcome of a call to `DataManager.load_data`: a returned value (the
`Bool` records whether the `except` branch printed an error message), or a
`UnicodeDecodeError` escaping the method uncaught. -/
inductive LoadOutcome where
  | returns : Json → Bool → LoadOutcome
  | unicodeDecodeError : LoadOutcome

/-- `DataManager.load_data` (src/data_manager.py:38-52) on the refined file
state: the `except (json.JSONDecodeError, IOError)` clause catches exactly
those two classes, printing and returning `[]`; a `UnicodeDecodeError`
raised by `json.load` on undecodable bytes matches neither and escapes. -/
def load_dataPy : FileBytes → LoadOutcome
  | FileBytes.absent => LoadOutcome.returns (Json.arr []) false
  | FileBytes.undecodable => LoadOutcome.unicodeDecodeError
  | FileBytes.malformed => LoadOutcome.returns (Json.arr []) true
  | FileBytes.unreadable => LoadOutcome.returns (Json.arr []) true
  | FileBytes.content j => LoadOutcome.returns j false

/- ### Shared helper lemmas -/

/-- Specification of `maxPair best l` (Python `max` over `best :: l` keyed on
the second component): it dominates `best` and every element of `l`, and it is
either `best` itself or an element of `l` strictly greater than `best` and
than everything before it. -/
theorem maxPair_spec {β : Type} [LinearOrder β] (l : List (String × β)) :
    ∀ best : String × β,
      best.2 ≤ (maxPair best l).2 ∧
      (∀ q ∈ l, q.2 ≤ (maxPair best l).2) ∧
      (maxPair best l = best ∨
        ∃ l1 l2, l = l1 ++ maxPair best l :: l2 ∧
          best.2 < (maxPair best l).2 ∧
          ∀ q ∈ l1, q.2 < (maxPair best l).2) := by
  induction l with
  | nil =>
    intro best
    exact ⟨le_refl _, by simp, Or.inl rfl⟩
  | cons p rest ih =>
    intro best
    simp only [maxPair]
    by_cases h : best.2 < p.2
    · rw [if_pos h]
      obtain ⟨h1, h2, h3⟩ := ih p
      refine ⟨le_trans (le_of_lt h) h1, ?_, ?_⟩
      · intro q hq
        rcases List.mem_cons.mp hq with rfl | hq
        · exact h1
        · exact h2 q hq
      · rcases h3 with heq | ⟨l1, l2, hsplit, hlt, hpre⟩
        · refine Or.inr ⟨[], rest, ?_, ?_, by simp⟩
          · rw [heq]
            simp
          · rw [heq]
            exact h
        · refine Or.inr ⟨p :: l1, l2, ?_, lt_of_lt_of_le h h1, ?_⟩
          · rw [List.cons_append]
            exact congrArg (List.cons p) hsplit
          · intro q hq
            rcases List.mem_cons.mp hq with rfl | hq
            · exact hlt
            · exact hpre q hq
    · rw [if_neg h]
      obtain ⟨h1, h2, h3⟩ := ih best
      have hp : p.2 ≤ best.2 := le_of_not_lt h
      refine ⟨h1, ?_, ?_⟩
      · intro q hq
        rcases List.mem_cons.mp hq with rfl | hq
        · exact le_trans hp h1
        · exact h2 q hq
      · rcases h3 with heq | ⟨l1, l2, hsplit, hlt, hpre⟩
        · exact Or.inl heq
        · refine Or.inr ⟨p :: l1, l2, ?_, hlt, ?_⟩
          · rw [List.cons_append]
            exact congrArg (List.cons p) hsplit
          · intro q hq
            rcases List.mem_cons.mp hq with rfl | hq
            · exact lt_of_le_of_lt hp hlt
            · exact hpre q hq

/- ### Claim theorems -/

/-- C7 (code bug): on an absent file `load_data` returns the empty list
without reporting an error, and on a `json.JSONDecodeError` or `IOError`
failure it reports and returns the empty list; but on an existing file whose
bytes do not decode, `json.load`'s `UnicodeDecodeError` is caught by neither
handler and escapes the store boundary, contradicting the claim's
no-exception-escapes part. -/
theorem load_data_undecodable_raises :
    load_dataPy FileBytes.absent = LoadOutcome.returns (Json.arr []) false ∧
    load_dataPy FileBytes.malformed = LoadOutcome.returns (Json.arr []) true ∧
    load_dataPy FileBytes.unreadable = LoadOutcome.returns (Json.arr []) true ∧
    load_dataPy FileBytes.undecodable = LoadOutcome.unicodeDecodeError :=
  ⟨rfl, rfl, rfl, rfl⟩

/-- C9: `load_data` passes any syntactically well-formed top-level JSON value
through unchanged — including non-array values such as an object or a number
— and `get_all_sessions` forwards it; only parse/read failures (and absence)
degrade to the empty list, so the sequence-of-records return shape is not
enforced. -/
theorem load_data_shape_not_enforced :
    (∀ j : Json, (load_data (some (some j))).1 = j) ∧
    (load_data (some (some (Json.num 42)))).1 = Json.num 42 ∧
    (load_data (some (some (Json.obj [("a", Json.null)])))).1 =
      Json.obj [("a", Json.null)] ∧
    (∀ fs : FS, get_all_sessions fs = (load_data fs).1) ∧
    (load_data (some none)).1 = Json.arr [] ∧
    (load_data none).1 = Json.arr [] :=
  ⟨fun _ => rfl, rfl, rfl, fun _ => rfl, rfl, rfl⟩

/-- C2: saving any sequence of valid session records and loading it back
yields the same sequence in the same order. -/
theorem save_load_roundtrip (data : List Json) (fs : FS)
    (_hvalid : data.all validSessionJson = true) :
    (load_data (save_data data fs).2).1 = Json.arr data :=
  rfl

/-- Witness for C2 at the single-record example of spec §6. -/
theorem save_load_roundtrip_witness :
    ([exampleRecordJson].all validSessionJson = true) ∧
    (load_data (save_data [exampleRecordJson] none).2).1 =
      Json.arr [exampleRecordJson] :=
  ⟨by decide, save_load_roundtrip [exampleRecordJson] none (by decide)⟩

/-- C8: every analytics aggregate is defined on the empty session list:
count 0, total 0, average 0, no most-studied subject, the `("", 0)` sentinel
for best productivity, streak 0. -/
theorem empty_input_aggregates (today : Int) :
    get_session_count [] = 0 ∧
    get_total_time [] = 0 ∧
    get_average_productivity [] = 0 ∧
    get_most_studied_subject [] = none ∧
    get_best_productivity_subject [] = ("", 0) ∧
    calculate_study_streak today [] = 0 :=
  ⟨rfl, rfl, rfl, rfl, rfl, rfl⟩

/-- C10: the windowed view is a subsequence of its input: every retained
record is an input record, unchanged, and relative order is preserved. -/
theorem get_weekly_sessions_sublist (now days : Int) (data : List Session) :
    (get_weekly_sessions now days data).Sublist data := by
  induction data with
  | nil => exact List.Sublist.refl []
  | cons s rest ih =>
    simp only [get_weekly_sessions]
    cases h : parseTimestamp s.timestamp with
    | none => exact ih.cons s
    | some t =>
      dsimp only
      by_cases hc : now - days * 86400 ≤ toSeconds t
      · rw [if_pos hc]
        exact ih.cons₂ s
      · rw [if_neg hc]
        exact ih.cons s

/-- C1 counterexample: on the three-record example of spec §8 the code does
not return `("Physics", 50)` (Math's total of 60 minutes is larger). -/
theorem most_studied_subject_not_physics :
    get_most_studied_subject exampleSessions ≠ some ("Physics", 50) := by
  decide

/-- Grouping a value into the ordered dict adds it to the sum of the stored
values. -/
theorem sum_addToAssoc (m : List (String × Int)) (k : String) (v : Int) :
    ((addToAssoc m k v).map Prod.snd).sum = (m.map Prod.snd).sum + v := by
  induction m with
  | nil => simp [addToAssoc]
  | cons p rest ih =>
    obtain ⟨k', v'⟩ := p
    simp only [addToAssoc]
    by_cases h : k' = k
    · rw [if_pos h]
      simp only [List.map_cons, List.sum_cons]
      ring
    · rw [if_neg h]
      simp only [List.map_cons, List.sum_cons, ih]
      ring

/-- The values of a fold of `addToAssoc` sum to the initial values plus the
grouped quantity. -/
theorem sum_groupFold (f : Session → Int) (l : List Session) :
    ∀ m : List (String × Int),
      (((l.foldl (fun m s => addToAssoc m s.subject (f s)) m)).map Prod.snd).sum
        = (m.map Prod.snd).sum + (l.map f).sum := by
  induction l with
  | nil => intro m; simp
  | cons s rest ih =>
    intro m
    simp only [List.foldl_cons, List.map_cons, List.sum_cons]
    rw [ih, sum_addToAssoc]
    ring

/-- C6: the total study time equals the sum of the per-subject totals. -/
theorem total_time_eq_sum_subject_time (sessions : List Session) :
    get_total_time sessions = ((get_subject_time sessions).map Prod.snd).sum := by
  unfold get_total_time get_subject_time
  rw [sum_groupFold]
  simp

/-- C1 (amended): `get_most_studied_subject` returns the entry of the
per-subject totals with the maximum total, ties broken by first-encountered
insertion order of the grouping, `none` exactly when the input is empty of
subjects; on the spec's three-record example it returns `("Math", 60)`
(Math totals 60 minutes, Physics 50). -/
theorem most_studied_subject_amended :
    (∀ (sessions : List Session) (p : String × Int),
        get_most_studied_subject sessions = some p →
        p ∈ get_subject_time sessions ∧
        (∀ q ∈ get_subject_time sessions, q.2 ≤ p.2) ∧
        ∃ l1 l2, get_subject_time sessions = l1 ++ p :: l2 ∧
          ∀ q ∈ l1, q.2 < p.2) ∧
    (∀ sessions : List Session,
        get_most_studied_subject sessions = none ↔
          get_subject_time sessions = []) ∧
    get_most_studied_subject exampleSessions = some ("Math", 60) := by
  refine ⟨?_, ?_, by decide⟩
  · intro sessions p hp
    unfold get_most_studied_subject at hp
    cases hst : get_subject_time sessions with
    | nil => rw [hst] at hp; cases hp
    | cons hd tl =>
      rw [hst] at hp
      injection hp with hp
      obtain ⟨h1, h2, h3⟩ := maxPair_spec tl hd
      rw [hp] at h1 h2 h3
      refine ⟨?_, ?_, ?_⟩
      · rcases h3 with heq | ⟨l1, l2, hsplit, _, _⟩
        · rw [heq]; exact List.mem_cons_self hd tl
        · exact List.mem_cons_of_mem hd (hsplit ▸ List.mem_append_right l1 (List.mem_cons_self p l2))
      · intro q hq
        rcases List.mem_cons.mp hq with rfl | hq
        · exact h1
        · exact h2 q hq
      · rcases h3 with heq | ⟨l1, l2, hsplit, hlt, hpre⟩
        · exact ⟨[], tl, by rw [heq]; simp, by simp⟩
        · refine ⟨hd :: l1, l2, by rw [List.cons_append]; exact congrArg (List.cons hd) hsplit, ?_⟩
          intro q hq
          rcases List.mem_cons.mp hq with rfl | hq
          · exact hlt
          · exact hpre q hq
  · intro sessions
    unfold get_most_studied_subject
    cases get_subject_time sessions with
    | nil => simp
    | cons hd tl => simp

/-- Witness for C1's amended theorem: instantiating the maximality clause on
the example shows Physics's 50 minutes do not exceed the returned total 60. -/
theorem most_studied_subject_amended_witness : (50 : Int) ≤ 60 :=
  (most_studied_subject_amended.1 exampleSessions ("Math", 60) (by decide)).2.1
    ("Physics", 50) (by decide)

/-- Membership characterization of the windowed view: a record is in the
window iff it is an input record whose timestamp parses to an instant at or
after the cutoff `now - days`. -/
theorem mem_get_weekly_sessions (now days : Int) (data : List Session)
    (r : Session) :
    r ∈ get_weekly_sessions now days data ↔
      r ∈ data ∧ ∃ t, parseTimestamp r.timestamp = some t ∧
        now - days * 86400 ≤ toSeconds t := by
  induction data with
  | nil => simp [get_weekly_sessions]
  | cons s rest ih =>
    simp only [get_weekly_sessions]
    cases h : parseTimestamp s.timestamp with
    | none =>
      dsimp only
      constructor
      · intro hr
        obtain ⟨hmem, ht⟩ := ih.mp hr
        exact ⟨List.mem_cons_of_mem s hmem, ht⟩
      · rintro ⟨hmem, t', hpt, hle⟩
        rcases List.mem_cons.mp hmem with rfl | hmem
        · rw [h] at hpt
          simp at hpt
        · exact ih.mpr ⟨hmem, t', hpt, hle⟩
    | some t =>
      dsimp only
      by_cases hc : now - days * 86400 ≤ toSeconds t
      · rw [if_pos hc]
        constructor
        · intro hr
          rcases List.mem_cons.mp hr with rfl | hr'
          · exact ⟨List.mem_cons_self _ rest, t, h, hc⟩
          · obtain ⟨hmem, ht⟩ := ih.mp hr'
            exact ⟨List.mem_cons_of_mem s hmem, ht⟩
        · rintro ⟨hmem, t', hpt, hle⟩
          rcases List.mem_cons.mp hmem with rfl | hmem
          · exact List.mem_cons_self r (get_weekly_sessions now days rest)
          · exact List.mem_cons_of_mem s (ih.mpr ⟨hmem, t', hpt, hle⟩)
      · rw [if_neg hc]
        constructor
        · intro hr
          obtain ⟨hmem, ht⟩ := ih.mp hr
          exact ⟨List.mem_cons_of_mem s hmem, ht⟩
        · rintro ⟨hmem, t', hpt, hle⟩
          rcases List.mem_cons.mp hmem with rfl | hmem
          · rw [h] at hpt
            injection hpt with e
            exact absurd (e ▸ hle) hc
          · exact ih.mpr ⟨hmem, t', hpt, hle⟩

/-- C4: the windowed view keeps exactly the records whose timestamp parses
under the canonical format and lies at or after `now - days` (unparseable
timestamps silently excluded); `days` defaults to 7; for records at days-ago
offsets 0, 3, 6, 8, 10 and `days = 7`, exactly the offsets 0, 3, 6 remain. -/
theorem get_weekly_sessions_spec :
    (∀ (now days : Int) (data : List Session) (r : Session),
        r ∈ get_weekly_sessions now days data ↔
          r ∈ data ∧ ∃ t, parseTimestamp r.timestamp = some t ∧
            now - days * 86400 ≤ toSeconds t) ∧
    (∀ (now : Int) (data : List Session),
        get_weekly_sessionsDefault now data = get_weekly_sessions now 7 data) ∧
    (∀ (now : Int) (r0 r3 r6 r8 r10 : Session) (t0 t3 t6 t8 t10 : DateTime),
        parseTimestamp r0.timestamp = some t0 → toSeconds t0 = now →
        parseTimestamp r3.timestamp = some t3 → toSeconds t3 = now - 3 * 86400 →
        parseTimestamp r6.timestamp = some t6 → toSeconds t6 = now - 6 * 86400 →
        parseTimestamp r8.timestamp = some t8 → toSeconds t8 = now - 8 * 86400 →
        parseTimestamp r10.timestamp = some t10 → toSeconds t10 = now - 10 * 86400 →
        get_weekly_sessions now 7 [r0, r3, r6, r8, r10] = [r0, r3, r6]) := by
  refine ⟨mem_get_weekly_sessions, fun _ _ => rfl, ?_⟩
  intro now r0 r3 r6 r8 r10 t0 t3 t6 t8 t10 hp0 hs0 hp3 hs3 hp6 hs6 hp8 hs8 hp10 hs10
  simp only [get_weekly_sessions, hp0, hp3, hp6, hp8, hp10, hs0, hs3, hs6, hs8, hs10]
  rw [if_pos (show now - 7 * 86400 ≤ now by omega)]
  rw [if_pos (show now - 7 * 86400 ≤ now - 3 * 86400 by omega)]
  rw [if_pos (show now - 7 * 86400 ≤ now - 6 * 86400 by omega)]
  rw [if_neg (show ¬ now - 7 * 86400 ≤ now - 8 * 86400 by omega)]
  rw [if_neg (show ¬ now - 7 * 86400 ≤ now - 10 * 86400 by omega)]

/-- Witness for C4's example at the concrete instant 2024-06-15 12:00:00 with
records 0, 3, 6, 8 and 10 days earlier. -/
theorem get_weekly_sessions_spec_witness :
    get_weekly_sessions (toSeconds ⟨2024, 6, 15, 12, 0, 0⟩) 7
      [Session.mk "2024-06-15 12:00:00" "a" 1 1 "",
       Session.mk "2024-06-12 12:00:00" "b" 1 1 "",
       Session.mk "2024-06-09 12:00:00" "c" 1 1 "",
       Session.mk "2024-06-07 12:00:00" "d" 1 1 "",
       Session.mk "2024-06-05 12:00:00" "e" 1 1 ""] =
      [Session.mk "2024-06-15 12:00:00" "a" 1 1 "",
       Session.mk "2024-06-12 12:00:00" "b" 1 1 "",
       Session.mk "2024-06-09 12:00:00" "c" 1 1 ""] :=
  get_weekly_sessions_spec.2.2 (toSeconds ⟨2024, 6, 15, 12, 0, 0⟩)
    (Session.mk "2024-06-15 12:00:00" "a" 1 1 "")
    (Session.mk "2024-06-12 12:00:00" "b" 1 1 "")
    (Session.mk "2024-06-09 12:00:00" "c" 1 1 "")
    (Session.mk "2024-06-07 12:00:00" "d" 1 1 "")
    (Session.mk "2024-06-05 12:00:00" "e" 1 1 "")
    ⟨2024, 6, 15, 12, 0, 0⟩ ⟨2024, 6, 12, 12, 0, 0⟩ ⟨2024, 6, 9, 12, 0, 0⟩
    ⟨2024, 6, 7, 12, 0, 0⟩ ⟨2024, 6, 5, 12, 0, 0⟩
    (by decide) (by decide) (by decide) (by decide) (by decide)
    (by decide) (by decide) (by decide) (by decide) (by decide)

/-- Looking a key up after grouping a value adds the value exactly on that
key. -/
theorem lookupD_addToAssoc (m : List (String × Int)) (k' k : String) (v : Int) :
    lookupD (addToAssoc m k' v) k = lookupD m k + (if k' = k then v else 0) := by
  induction m with
  | nil =>
    simp only [addToAssoc, lookupD]
    by_cases h : k' = k
    · rw [if_pos h]
      omega
    · rw [if_neg h]
      omega
  | cons p rest ih =>
    obtain ⟨k0, v0⟩ := p
    simp only [addToAssoc]
    by_cases h0 : k0 = k'
    · subst h0
      rw [if_pos rfl]
      simp only [lookupD]
      by_cases hk : k0 = k
      · simp only [if_pos hk]
      · simp only [if_neg hk]
        omega
    · rw [if_neg h0]
      simp only [lookupD]
      by_cases hk : k0 = k
      · simp only [if_pos hk]
        rw [if_neg (fun he => h0 (hk.trans he.symm))]
        omega
      · simp only [if_neg hk]
        exact ih

/-- Looking a key up in a fold of `addToAssoc` yields the initial value plus
the grouped quantity summed over the sessions with that subject. -/
theorem lookupD_groupFold (f : Session → Int) (l : List Session) :
    ∀ (m : List (String × Int)) (k : String),
      lookupD (l.foldl (fun m s => addToAssoc m s.subject (f s)) m) k
        = lookupD m k + ((l.filter (fun s => decide (s.subject = k))).map f).sum := by
  induction l with
  | nil => intro m k; simp
  | cons s rest ih =>
    intro m k
    simp only [List.foldl_cons]
    rw [ih, lookupD_addToAssoc]
    by_cases hk : s.subject = k
    · simp [List.filter_cons, hk]
      omega
    · simp [List.filter_cons, hk]

/-- Keys of the grouped dict after one update: unchanged for a present key,
appended for a new one. -/
theorem keys_addToAssoc (m : List (String × Int)) (k : String) (v : Int) :
    (addToAssoc m k v).map Prod.fst =
      if k ∈ m.map Prod.fst then m.map Prod.fst else m.map Prod.fst ++ [k] := by
  induction m with
  | nil => simp [addToAssoc]
  | cons p rest ih =>
    obtain ⟨k0, v0⟩ := p
    simp only [addToAssoc, List.map_cons]
    by_cases h0 : k0 = k
    · rw [if_pos h0]
      simp [h0]
    · rw [if_neg h0]
      simp only [List.map_cons, List.mem_cons]
      by_cases hm : k ∈ rest.map Prod.fst
      · rw [ih, if_pos hm, if_pos (Or.inr hm)]
      · rw [ih, if_neg hm, if_neg ?_]
        · simp
        · rintro (he | hm')
          · exact h0 he.symm
          · exact hm hm'

/-- Grouping preserves distinctness of the dict keys. -/
theorem nodup_keys_addToAssoc (m : List (String × Int)) (k : String) (v : Int)
    (h : (m.map Prod.fst).Nodup) : ((addToAssoc m k v).map Prod.fst).Nodup := by
  rw [keys_addToAssoc]
  by_cases hm : k ∈ m.map Prod.fst
  · rw [if_pos hm]
    exact h
  · rw [if_neg hm]
    exact List.Nodup.append h (List.nodup_singleton k)
      (List.disjoint_singleton.mpr hm)

/-- The grouped dict built by the fold has distinct keys. -/
theorem nodup_keys_groupFold (f : Session → Int) (l : List Session) :
    ∀ m : List (String × Int), (m.map Prod.fst).Nodup →
      (((l.foldl (fun m s => addToAssoc m s.subject (f s)) m)).map Prod.fst).Nodup := by
  induction l with
  | nil => intro m h; exact h
  | cons s rest ih =>
    intro m h
    simp only [List.foldl_cons]
    exact ih _ (nodup_keys_addToAssoc m s.subject (f s) h)

/-- In a dict with distinct keys, lookup of a stored entry's key returns its
value. -/
theorem lookupD_of_mem (m : List (String × Int)) (p : String × Int)
    (hnd : (m.map Prod.fst).Nodup) (hp : p ∈ m) : lookupD m p.1 = p.2 := by
  induction m with
  | nil => cases hp
  | cons q rest ih =>
    obtain ⟨k0, v0⟩ := q
    simp only [List.map_cons, List.nodup_cons] at hnd
    rcases List.mem_cons.mp hp with rfl | hp'
    · simp [lookupD]
    · simp only [lookupD]
      rw [if_neg ?_]
      · exact ih hnd.2 hp'
      · intro he
        exact hnd.1 (he ▸ List.mem_map_of_mem Prod.fst hp')

/-- `addToAssoc` never returns the empty dict. -/
theorem addToAssoc_ne_nil (m : List (String × Int)) (k : String) (v : Int) :
    addToAssoc m k v ≠ [] := by
  cases m with
  | nil => simp [addToAssoc]
  | cons p rest =>
    obtain ⟨k0, v0⟩ := p
    simp only [addToAssoc]
    by_cases h : k0 = k
    · rw [if_pos h]
      simp
    · rw [if_neg h]
      simp

/-- The grouped dict of a non-empty session list is non-empty. -/
theorem groupFold_ne_nil (f : Session → Int) (l : List Session)
    (hl : l ≠ []) :
    l.foldl (fun m s => addToAssoc m s.subject (f s)) [] ≠ [] := by
  have step : ∀ (l' : List Session) (m : List (String × Int)), m ≠ [] →
      l'.foldl (fun m s => addToAssoc m s.subject (f s)) m ≠ [] := by
    intro l'
    induction l' with
    | nil => intro m h; exact h
    | cons s rest ih =>
      intro m _
      simp only [List.foldl_cons]
      exact ih _ (addToAssoc_ne_nil m s.subject (f s))
  cases l with
  | nil => exact absurd rfl hl
  | cons s rest =>
    simp only [List.foldl_cons]
    exact step rest _ (addToAssoc_ne_nil [] s.subject (f s))

/-- A list of ones sums to the length. -/
theorem sum_map_one (l : List Session) :
    (l.map (fun _ => (1 : Int))).sum = (l.length : Int) := by
  induction l with
  | nil => simp
  | cons s rest ih => simp [ih]; omega

/-- C5: every entry of the per-subject average table is the arithmetic mean
of the productivity scores of that subject's sessions; on non-empty input
`get_best_productivity_subject` returns the entry of that table with the
highest average, ties broken deterministically by first-encountered insertion
order; on the spec's three-record example it returns `("Math", 4.0)` although
Math and Physics both average 4.0. -/
theorem best_productivity_subject_spec :
    (∀ (sessions : List Session) (k : String) (a : ℚ),
        (k, a) ∈ subjectAvg sessions →
        a = ((((sessions.filter (fun s => decide (s.subject = k))).map
                (fun s => s.productivity)).sum : Int) : ℚ) /
            ((sessions.filter (fun s => decide (s.subject = k))).length : ℚ)) ∧
    (∀ sessions : List Session, sessions ≠ [] →
        get_best_productivity_subject sessions ∈ subjectAvg sessions ∧
        (∀ q ∈ subjectAvg sessions,
            q.2 ≤ (get_best_productivity_subject sessions).2) ∧
        ∃ l1 l2, subjectAvg sessions = l1 ++ get_best_productivity_subject sessions :: l2 ∧
          ∀ q ∈ l1, q.2 < (get_best_productivity_subject sessions).2) ∧
    get_best_productivity_subject exampleSessions = ("Math", 4) := by
  have hMP : ("Math" : String) ≠ "Physics" := by decide
  have hPM : ("Physics" : String) ≠ "Math" := by decide
  refine ⟨?_, ?_, by
    norm_num [get_best_productivity_subject, subjectAvg, exampleSessions,
      mathSession1, mathSession2, physicsSession, addToAssoc, lookupD, maxPair,
      hMP, hPM]⟩
  · intro sessions k a hmem
    unfold subjectAvg at hmem
    obtain ⟨p, hp, hgp⟩ := List.mem_map.mp hmem
    obtain ⟨hk, ha⟩ := Prod.mk.injEq .. |>.mp hgp
    have hnd : ((sessions.foldl
        (fun m s => addToAssoc m s.subject s.productivity) []).map Prod.fst).Nodup :=
      nodup_keys_groupFold (fun s => s.productivity) sessions [] (by simp)
    have hval : p.2 = ((sessions.filter (fun s => decide (s.subject = p.1))).map
        (fun s => s.productivity)).sum := by
      have h1 := lookupD_of_mem _ p hnd hp
      have h2 := lookupD_groupFold (fun s => s.productivity) sessions [] p.1
      simp only [lookupD] at h2
      omega
    have hcount : lookupD (sessions.foldl
        (fun m s => addToAssoc m s.subject 1) []) p.1
        = ((sessions.filter (fun s => decide (s.subject = p.1))).length : Int) := by
      have h2 := lookupD_groupFold (fun _ => (1 : Int)) sessions [] p.1
      simp only [lookupD] at h2
      rw [h2, sum_map_one]
      omega
    subst hk
    rw [← ha, hval, hcount, Int.cast_natCast]
  · intro sessions hne
    have hgne : sessions.foldl
        (fun m s => addToAssoc m s.subject s.productivity) [] ≠ [] :=
      groupFold_ne_nil (fun s => s.productivity) sessions hne
    have havgne : subjectAvg sessions ≠ [] := by
      unfold subjectAvg
      simpa using hgne
    cases sessions with
    | nil => exact absurd rfl hne
    | cons s rest =>
      unfold get_best_productivity_subject
      simp only [List.isEmpty_cons, Bool.false_eq_true, if_false]
      cases havg : subjectAvg (s :: rest) with
      | nil => exact absurd havg havgne
      | cons q qs =>
        dsimp only
        obtain ⟨h1, h2, h3⟩ := maxPair_spec qs q
        refine ⟨?_, ?_, ?_⟩
        · rcases h3 with heq | ⟨l1, l2, hsplit, _, _⟩
          · rw [heq]
            exact List.mem_cons_self q qs
          · refine List.mem_cons_of_mem q ?_
            obtain ⟨r, hr⟩ : ∃ r, maxPair q qs = r := ⟨_, rfl⟩
            rw [hr] at hsplit ⊢
            rw [hsplit]
            exact List.mem_append_right l1 (List.mem_cons_self r l2)
        · intro r hr
          rcases List.mem_cons.mp hr with rfl | hr'
          · exact h1
          · exact h2 r hr'
        · rcases h3 with heq | ⟨l1, l2, hsplit, hlt, hpre⟩
          · refine ⟨[], qs, ?_, by simp⟩
            rw [heq]
            simp
          · refine ⟨q :: l1, l2, ?_, ?_⟩
            · rw [List.cons_append]
              exact congrArg (List.cons q) hsplit
            · intro r hr
              rcases List.mem_cons.mp hr with rfl | hr'
              · exact hlt
              · exact hpre r hr'

/-- Witness for C5: instantiating the mean clause at the example's Math entry
gives exactly the arithmetic mean (3 + 5) / 2 = 4. -/
theorem best_productivity_subject_spec_witness :
    (4 : ℚ) = ((((exampleSessions.filter (fun s => decide (s.subject = "Math"))).map
        (fun s => s.productivity)).sum : Int) : ℚ) /
      ((exampleSessions.filter (fun s => decide (s.subject = "Math"))).length : ℚ) :=
  best_productivity_subject_spec.1 exampleSessions "Math" 4 (by
    have hMP : ("Math" : String) ≠ "Physics" := by decide
    have hPM : ("Physics" : String) ≠ "Math" := by decide
    norm_num [subjectAvg, exampleSessions,
      mathSession1, mathSession2, physicsSession, addToAssoc, lookupD, hMP, hPM])

/-- Inserting into the empty descending list. -/
theorem insertDesc_nil (x : Int) : insertDesc x [] = [x] := rfl

/-- Inserting an element at least as large as the head. -/
theorem insertDesc_ge (x y : Int) (ys : List Int) (h : y ≤ x) :
    insertDesc x (y :: ys) = x :: y :: ys := by
  rw [show insertDesc x (y :: ys)
      = if y ≤ x then x :: y :: ys else y :: insertDesc x ys from rfl, if_pos h]

/-- The streak walk extends across a one-day step. -/
theorem consecRun_step (a b : Int) (rest : List Int) (h : a - b = 1) :
    consecRun (a :: b :: rest) = 1 + consecRun (b :: rest) := by
  rw [show consecRun (a :: b :: rest)
      = if a - b = 1 then 1 + consecRun (b :: rest) else 1 from rfl, if_pos h]

/-- The streak walk stops at the first gap. -/
theorem consecRun_gap (a b : Int) (rest : List Int) (h : ¬ a - b = 1) :
    consecRun (a :: b :: rest) = 1 := by
  rw [show consecRun (a :: b :: rest)
      = if a - b = 1 then 1 + consecRun (b :: rest) else 1 from rfl, if_neg h]

/-- C3: the study streak walks the distinct parseable dates backward from the
most recent one, skipping unparseable timestamps, returning 0 when the most
recent date is neither today nor yesterday and stopping at the first gap:
dates {today, today-1, today-2, today-4} (with an unparseable record mixed
in) give 3, {today-2} alone gives 0, {today-1, today-2} give 2. -/
theorem calculate_study_streak_spec :
    (∀ (today : Int) (s0 sb s1 s2 s4 : Session),
        (parseTimestamp s0.timestamp).map toDay = some today →
        (parseTimestamp sb.timestamp).map toDay = none →
        (parseTimestamp s1.timestamp).map toDay = some (today - 1) →
        (parseTimestamp s2.timestamp).map toDay = some (today - 2) →
        (parseTimestamp s4.timestamp).map toDay = some (today - 4) →
        calculate_study_streak today [s0, sb, s1, s2, s4] = 3) ∧
    (∀ (today : Int) (s2 : Session),
        (parseTimestamp s2.timestamp).map toDay = some (today - 2) →
        calculate_study_streak today [s2] = 0) ∧
    (∀ (today : Int) (s1 s2 : Session),
        (parseTimestamp s1.timestamp).map toDay = some (today - 1) →
        (parseTimestamp s2.timestamp).map toDay = some (today - 2) →
        calculate_study_streak today [s1, s2] = 2) := by
  refine ⟨?_, ?_, ?_⟩
  · intro today s0 sb s1 s2 s4 h0 hb h1 h2 h4
    have m1 : today - 1 ≠ today := by omega
    have m2 : today - 2 ≠ today := by omega
    have m3 : today - 2 ≠ today - 1 := by omega
    have m4 : today - 4 ≠ today := by omega
    have m5 : today - 4 ≠ today - 1 := by omega
    have m6 : today - 4 ≠ today - 2 := by omega
    simp only [calculate_study_streak, datesOf, List.foldl_cons, List.foldl_nil,
      h0, hb, h1, h2, h4]
    simp only [List.not_mem_nil, List.mem_cons, List.mem_singleton,
      List.nil_append, List.cons_append, m1, m2, m3, m4, m5, m6,
      List.isEmpty_cons, Bool.false_eq_true, if_false, or_self, or_false, false_or]
    simp only [sortDesc, List.foldr_cons, List.foldr_nil, insertDesc_nil]
    rw [insertDesc_ge _ _ _ (show today - 4 ≤ today - 2 by omega)]
    rw [insertDesc_ge _ _ _ (show today - 2 ≤ today - 1 by omega)]
    rw [insertDesc_ge _ _ _ (show today - 1 ≤ today by omega)]
    dsimp only
    rw [if_neg (fun hc => hc.1 rfl)]
    rw [consecRun_step _ _ _ (show today - (today - 1) = 1 by omega)]
    rw [consecRun_step _ _ _ (show today - 1 - (today - 2) = 1 by omega)]
    rw [consecRun_gap _ _ _ (show ¬ today - 2 - (today - 4) = 1 by omega)]
  · intro today s2 h2
    have n1 : today - 2 ≠ today := by omega
    have n2 : today - 2 ≠ today - 1 := by omega
    simp [calculate_study_streak, datesOf, sortDesc, insertDesc, consecRun,
      h2, n1, n2]
  · intro today s1 s2 h1 h2
    have m3 : today - 2 ≠ today - 1 := by omega
    simp only [calculate_study_streak, datesOf, List.foldl_cons, List.foldl_nil,
      h1, h2]
    simp only [List.not_mem_nil, List.mem_cons, List.mem_singleton,
      List.nil_append, List.cons_append, m3,
      List.isEmpty_cons, Bool.false_eq_true, if_false, or_self, or_false, false_or]
    simp only [sortDesc, List.foldr_cons, List.foldr_nil, insertDesc_nil]
    rw [insertDesc_ge _ _ _ (show today - 2 ≤ today - 1 by omega)]
    dsimp only
    rw [if_neg (fun hc => hc.2 rfl)]
    rw [consecRun_step _ _ _ (show today - 1 - (today - 2) = 1 by omega)]
    rfl

/-- Witness for C3 at the concrete date 2024-06-15: records on 2024-06-15,
-14, -13 and -11 plus one unparseable timestamp give a streak of 3. -/
theorem calculate_study_streak_spec_witness :
    calculate_study_streak (daysFromCivil 2024 6 15)
      [Session.mk "2024-06-15 09:00:00" "a" 1 1 "",
       Session.mk "not a timestamp" "a" 1 1 "",
       Session.mk "2024-06-14 09:00:00" "a" 1 1 "",
       Session.mk "2024-06-13 09:00:00" "a" 1 1 "",
       Session.mk "2024-06-11 09:00:00" "a" 1 1 ""] = 3 :=
  calculate_study_streak_spec.1 (daysFromCivil 2024 6 15)
    (Session.mk "2024-06-15 09:00:00" "a" 1 1 "")
    (Session.mk "not a timestamp" "a" 1 1 "")
    (Session.mk "2024-06-14 09:00:00" "a" 1 1 "")
    (Session.mk "2024-06-13 09:00:00" "a" 1 1 "")
    (Session.mk "2024-06-11 09:00:00" "a" 1 1 "")
    (by decide) (by decide) (by decide) (by decide) (by decide)
